import Mathlib

/-!
Verification of the sensible-proxy connection handlers against a shallow
embedding of the Go source (src/sensible-proxy.go, src/connection_proxy.go).

The downstream TCP connection is modelled as the finite list of bytes (for
the TLS handler) or characters (for the HTTP handler) that the client sends
before closing its write side.  A single socket `Read` into a buffer of `n`
bytes returns all currently available bytes up to `n` (zero-padding the rest
of the freshly allocated buffer, as Go's `make` does), and returns an error
only when no byte at all is available (EOF).  Out-of-bounds slice indexing,
which in Go is a runtime panic that kills the process, is modelled by an
explicit `panicked` outcome.
-/

namespace SensibleProxy

/-- Big-endian decoding of two bytes, as in the Go source:
`(int(b0) << 8) + int(b1)`. -/
def be16 (b0 b1 : Nat) : Nat := b0 * 256 + b1

/-- Big-endian encoding of a number below 2^16 into two bytes. -/
def len2 (n : Nat) : List Nat := [n / 256, n % 256]

/-- One Go `conn.Read` into a freshly allocated buffer of `n` bytes.
Returns `none` (an error: EOF) only when `n > 0` and no byte is available;
otherwise returns the zero-padded buffer of length exactly `n` and the
remaining stream.  This mirrors Go semantics where a short read delivers
fewer than `n` bytes with a nil error and the rest of the buffer keeps its
zero initialization. -/
def readN (n : Nat) (s : List Nat) : Option (List Nat × List Nat) :=
  if n = 0 then some ([], s)
  else if s = [] then none
  else some (s.take n ++ List.replicate (n - (s.take n).length) 0, s.drop n)

/-- Outcome of parsing the `rest` buffer of a TLS record
(`handleHTTPSConnection`, src/sensible-proxy.go lines 667-735). -/
inductive SniffOut where
  | panicked
  | notClientHello
  | noExtensions
  | notHostnameType
  | noHostname
  | found (hostname : List Nat)
  | outOfFuel
deriving DecidableEq, Repr

/-- The extension-scanning loop of `handleHTTPSConnection`
(src/sensible-proxy.go lines 706-731).  `fuel` bounds the number of
iterations; `extLoop_no_outOfFuel` shows `restLength` fuel always suffices,
so the handler below runs the loop with that fuel and is faithful to the
unbounded Go loop.  Every Go index expression `rest[i]` becomes a lookup
that yields `panicked` when `i` is out of bounds. -/
def extLoop (rest : List Nat) (restLength : Nat) : Nat → Nat → SniffOut
  | current, 0 =>
    if current < restLength then .outOfFuel else .noHostname
  | current, fuel + 1 =>
    if current < restLength then
      match rest[current]?, rest[current + 1]?,
            rest[current + 2]?, rest[current + 3]? with
      | some t0, some t1, some d0, some d1 =>
        if be16 t0 t1 = 0 then
          match rest[current + 6]? with
          | some nameType =>
            if nameType ≠ 0 then .notHostnameType
            else
              match rest[current + 7]?, rest[current + 8]? with
              | some n0, some n1 =>
                let nameLen := be16 n0 n1
                if current + 9 + nameLen ≤ rest.length then
                  if nameLen = 0 then
                    extLoop rest restLength (current + 9 + be16 d0 d1) fuel
                  else .found ((rest.drop (current + 9)).take nameLen)
                else .panicked
              | _, _ => .panicked
          | none => .panicked
        else extLoop rest restLength (current + 4 + be16 d0 d1) fuel
      | _, _, _, _ => .panicked
    else .noHostname

/-- Parsing of the `rest` buffer after the four header reads
(src/sensible-proxy.go lines 667-735): handshake type, fixed 37-byte skip,
session-id, cipher-suite and compression-method lengths, the extensions
check, and the extension loop. -/
def sniffRest (rest : List Nat) (restLength : Nat) : SniffOut :=
  match rest[0]? with
  | none => .panicked
  | some handshakeType =>
    if handshakeType ≠ 1 then .notClientHello
    else
      match rest[38]? with
      | none => .panicked
      | some sessionIDLength =>
        let c1 := 39 + sessionIDLength
        match rest[c1]?, rest[c1 + 1]? with
        | some b0, some b1 =>
          let c2 := c1 + 2 + be16 b0 b1
          match rest[c2]? with
          | some compressionMethodLength =>
            let c3 := c2 + 1 + compressionMethodLength
            if c3 > restLength then .noExtensions
            else extLoop rest restLength (c3 + 2) restLength
          | none => .panicked
        | _, _ => .panicked

/-- Terminal state of one run of `handleHTTPSConnection`.  The tags record
which log line (if any) the Go code emits:
`readErrFirst` "couldn't read first byte", `notTLS` "not TLS",
`readErrVersion` "couldn't read version bytes", `badVersion` "SSL < 3.1",
`readErrRestLen` "couldn't read restLength bytes", `readErrRest`
"couldn't read rest of bytes", `notClientHello` "not a ClientHello",
`noExtensions` "no extensions", `notHostnameType` "not a hostname",
`noHostname` "no hostname found", `dialFailed` "Couldn't connect to
backend", `panicked` an index-out-of-range runtime panic (no log, the
process crashes), `proxied` success. -/
inductive HTTPSTag where
  | readErrFirst | notTLS | readErrVersion | badVersion
  | readErrRestLen | readErrRest
  | panicked | notClientHello | noExtensions | notHostnameType | noHostname
  | fuelOut | dialFailed | proxied
deriving DecidableEq, Repr

/-- Observable effects of one run of `handleHTTPSConnection`:
`closes` counts `downstream.Close()` calls made by the handler itself,
`dialed` lists the upstream addresses passed to `net.Dial`, `preWrites`
lists the byte chunks written to the upstream before the splice starts,
`spliced` records whether the two `copyAndClose` relays were started. -/
structure HTTPSResult where
  tag : HTTPSTag
  hostname : List Nat
  closes : Nat
  dialed : List (List Nat)
  preWrites : List (List Nat)
  spliced : Bool
deriving DecidableEq, Repr

/-- The environment decides which upstream dials succeed. -/
structure HTTPSEnv where
  dialOK : List Nat → Bool

def strBytes (s : String) : List Nat := s.data.map Char.toNat

/-- Upstream dial address of the TLS handler: `"www." + hostname + ":443"`. -/
def httpsAddr (hostname : List Nat) : List Nat :=
  strBytes "www." ++ hostname ++ strBytes ":443"

/-- The tail of `handleHTTPSConnection` after the four reads succeeded
(src/sensible-proxy.go lines 667-755): parse `rest`, then dial, replay the
four captured chunks and splice.  Note that the `notHostnameType` and
`noHostname` paths return without closing the downstream socket, unlike
every other failure path. -/
def finishTLS (env : HTTPSEnv) (firstByte versionBytes restLengthBytes rest : List Nat)
    (restLength : Nat) : HTTPSResult :=
  match sniffRest rest restLength with
  | .panicked => ⟨.panicked, [], 0, [], [], false⟩
  | .notClientHello => ⟨.notClientHello, [], 1, [], [], false⟩
  | .noExtensions => ⟨.noExtensions, [], 1, [], [], false⟩
  | .notHostnameType => ⟨.notHostnameType, [], 0, [], [], false⟩
  | .noHostname => ⟨.noHostname, [], 0, [], [], false⟩
  | .outOfFuel => ⟨.fuelOut, [], 0, [], [], false⟩
  | .found hostname =>
    if env.dialOK (httpsAddr hostname) then
      ⟨.proxied, hostname, 0, [httpsAddr hostname],
        [firstByte, versionBytes, restLengthBytes, rest], true⟩
    else ⟨.dialFailed, hostname, 1, [httpsAddr hostname], [], false⟩

/-- Shallow embedding of `handleHTTPSConnection`
(src/sensible-proxy.go lines 623-755) on the downstream byte stream `s`. -/
def handleHTTPSConnection (env : HTTPSEnv) (s : List Nat) : HTTPSResult :=
  match readN 1 s with
  | none => ⟨.readErrFirst, [], 1, [], [], false⟩
  | some (firstByte, s1) =>
    if firstByte.getD 0 0 ≠ 22 then ⟨.notTLS, [], 1, [], [], false⟩
    else
      match readN 2 s1 with
      | none => ⟨.readErrVersion, [], 1, [], [], false⟩
      | some (versionBytes, s2) =>
        if versionBytes.getD 0 0 < 3 ∨
            (versionBytes.getD 0 0 = 3 ∧ versionBytes.getD 1 0 < 1) then
          ⟨.badVersion, [], 1, [], [], false⟩
        else
          match readN 2 s2 with
          | none => ⟨.readErrRestLen, [], 1, [], [], false⟩
          | some (restLengthBytes, s3) =>
            let restLength := be16 (restLengthBytes.getD 0 0) (restLengthBytes.getD 1 0)
            match readN restLength s3 with
            | none => ⟨.readErrRest, [], 1, [], [], false⟩
            | some (rest, _) =>
              finishTLS env firstByte versionBytes restLengthBytes rest restLength

/-- An environment in which every dial succeeds. -/
def envAll : HTTPSEnv := ⟨fun _ => true⟩

/-! ### Well-formed ClientHello records

The encoder below produces the byte image of a TLS ClientHello record whose
extension list carries a single-entry server_name entry, exactly as laid
out in RFC terms mirrored by the parser offsets. -/

/-- Byte image of one extension: 2-byte type, 2-byte data length, data. -/
def encExt (p : Nat × List Nat) : List Nat :=
  p.1 / 256 :: p.1 % 256 :: p.2.length / 256 :: p.2.length % 256 :: p.2

/-- Byte image of a list of extensions. -/
def extsBytes : List (Nat × List Nat) → List Nat
  | [] => []
  | p :: ps => encExt p ++ extsBytes ps

/-- Byte image of a server_name extension with a single hostname entry:
type 0, data length, list length, name type 0, name length, name. -/
def encSNI (h : List Nat) : List Nat :=
  0 :: 0 :: (h.length + 5) / 256 :: (h.length + 5) % 256 ::
  (h.length + 3) / 256 :: (h.length + 3) % 256 ::
  0 :: h.length / 256 :: h.length % 256 :: h

/-- Structured form of a ClientHello whose extensions are some non-SNI
extensions, then a single-entry server_name extension, then arbitrary
trailing extension bytes. -/
structure ClientHello where
  innerLen : List Nat
  clientVersion : List Nat
  random : List Nat
  sessionID : List Nat
  cipherSuites : List Nat
  compressionMethods : List Nat
  preExts : List (Nat × List Nat)
  hostname : List Nat
  trailing : List Nat

/-- The handshake body of the record (`rest` in the Go source). -/
def chBody (ch : ClientHello) : List Nat :=
  [1] ++ ch.innerLen ++ ch.clientVersion ++ ch.random
  ++ [ch.sessionID.length] ++ ch.sessionID
  ++ len2 ch.cipherSuites.length ++ ch.cipherSuites
  ++ [ch.compressionMethods.length] ++ ch.compressionMethods
  ++ len2 (extsBytes ch.preExts ++ encSNI ch.hostname ++ ch.trailing).length
  ++ extsBytes ch.preExts ++ encSNI ch.hostname ++ ch.trailing

/-- The full record: record type `0x16`, version, 2-byte length, body. -/
def encodeRecord (v0 v1 : Nat) (ch : ClientHello) : List Nat :=
  [22, v0, v1] ++ len2 (chBody ch).length ++ chBody ch

/-! ### HTTP handler model

`handleHTTPConnection` (src/sensible-proxy.go lines 578-621) reads
CRLF-terminated header lines through a buffered reader.  The stream is the
list of characters the client sends before closing. -/

/-- Scan for the first newline: returns the characters before it and
`some rest` when a newline was found, or the whole stream and `none`
otherwise (the buffered reader returns a partial line without error at
EOF when it holds data). -/
def splitLine : List Char → List Char × Option (List Char)
  | [] => ([], none)
  | c :: cs =>
    if c = '\n' then ([], some cs)
    else
      let p := splitLine cs
      (c :: p.1, p.2)

/-- Strip one trailing carriage return, as `bufio.Reader.ReadLine` does to
a line that ended with a newline. -/
def stripCR (l : List Char) : List Char :=
  match l.getLast? with
  | some c => if c = '\r' then l.dropLast else l
  | none => l

/-- One `reader.ReadLine()` call: `none` is a read error (EOF with no
buffered data); otherwise the line (newline and one preceding carriage
return stripped) and the remaining stream. -/
def readLine (s : List Char) : Option (List Char × List Char) :=
  match s with
  | [] => none
  | _ =>
    match splitLine s with
    | (l, some r) => some (stripCR l, r)
    | (l, none) => some (l, [])

/-- The `"Host: "` header marker used by `strings.HasPrefix` /
`strings.TrimPrefix` in the Go source. -/
def hostMarker : List Char := ['H', 'o', 's', 't', ':', ' ']

/-- Result of the header-sniffing loop of `handleHTTPConnection`. -/
inductive HTTPSniff where
  | readErr
  | fuelOut
  | ok (captured : List (List Char)) (hostname : List Char) (remaining : List Char)
deriving DecidableEq, Repr

/-- The sniffing loop of `handleHTTPConnection` (src/sensible-proxy.go
lines 582-599): read lines, pushing each onto `readLines`, stopping at a
blank line (hostname stays empty) or at a `"Host: "` line (hostname is the
remainder of the line).  Each iteration consumes at least one character,
so `s.length + 1` fuel always suffices; the handler below uses that. -/
def sniffHTTP : Nat → List Char → HTTPSniff
  | 0, _ => .fuelOut
  | fuel + 1, s =>
    match readLine s with
    | none => .readErr
    | some (line, s2) =>
      if line = [] then .ok [line] [] s2
      else if hostMarker.isPrefixOf line then .ok [line] (line.drop 6) s2
      else
        match sniffHTTP fuel s2 with
        | .readErr => .readErr
        | .fuelOut => .fuelOut
        | .ok cap h rem => .ok (line :: cap) h rem

/-- Tags of the HTTP handler's terminal states; `readErr` logs "Error
reading from connection:", `dialFailed` logs "Couldn't connect to
backend:", `proxied` splices. -/
inductive HTTPTag where
  | readErr | fuelOut | dialFailed | proxied
deriving DecidableEq, Repr

/-- Observable effects of one `handleHTTPConnection` run.  `upstreamPre`
is the replay of the captured lines written before the splice (each line
followed by a single newline); `upstreamTotal` additionally appends the
rest of the downstream stream relayed by `copyAndClose(upstream, reader)`. -/
structure HTTPResult where
  tag : HTTPTag
  hostname : List Char
  closes : Nat
  dialed : List (List Char)
  upstreamPre : List Char
  upstreamTotal : List Char
  captured : List (List Char)
deriving DecidableEq, Repr

structure HTTPEnv where
  dialOK : List Char → Bool

/-- Upstream dial address of the HTTP handler: `"www." + hostname + ":80"`. -/
def httpAddr (hostname : List Char) : List Char :=
  "www.".data ++ hostname ++ ":80".data

/-- The replay loop (src/sensible-proxy.go lines 613-617): every captured
line is written to the upstream followed by a single `"\n"`. -/
def joinLines : List (List Char) → List Char
  | [] => []
  | l :: ls => l ++ '\n' :: joinLines ls

/-- Shallow embedding of `handleHTTPConnection`
(src/sensible-proxy.go lines 578-621). -/
def handleHTTPConnection (env : HTTPEnv) (s : List Char) : HTTPResult :=
  match sniffHTTP (s.length + 1) s with
  | .readErr => ⟨.readErr, [], 1, [], [], [], []⟩
  | .fuelOut => ⟨.fuelOut, [], 0, [], [], [], []⟩
  | .ok cap h rem =>
    if env.dialOK (httpAddr h) then
      ⟨.proxied, h, 0, [httpAddr h], joinLines cap, joinLines cap ++ rem, cap⟩
    else ⟨.dialFailed, h, 1, [httpAddr h], [], [], cap⟩

/-- CRLF encoding of a list of header lines, as an HTTP client sends them. -/
def encodeLines : List (List Char) → List Char
  | [] => []
  | l :: ls => l ++ '\r' :: '\n' :: encodeLines ls

/-- An HTTP environment in which every dial succeeds. -/
def envHTTPAll : HTTPEnv := ⟨fun _ => true⟩

/-- An HTTP environment in which every dial fails. -/
def envHTTPNone : HTTPEnv := ⟨fun _ => false⟩

/-! ### Whitelist and logging helpers (src/connection_proxy.go) -/

/-- The linear scan of `IsWhiteListed` over the snapshot
(src/connection_proxy.go lines 84-88). -/
def containsHash (hash : String) : List String → Bool
  | [] => false
  | e :: es => if hash = e then true else containsHash hash es

/-- Shallow embedding of `ConnectionProxy.IsWhiteListed`
(src/connection_proxy.go lines 79-90).  The SHA-1 hex digest function is
a parameter: its Go definition (`SHA1`) is not among the source files,
only its call sites are, so the digest is kept abstract. -/
def IsWhiteListed (sha1hex : String → String) (whitelist : List String)
    (hostname : String) : Bool :=
  if whitelist.length < 1 then true
  else containsHash (sha1hex hostname) whitelist

/-- One formatted log line, keeping the fields `NewLogData`
(src/logdata.go) stores; the wall-clock timestamp prepended by
`LogData.String` is outside the model. -/
structure LogLine where
  message : String
  messageType : String
  hostname : String
  hasConn : Bool
deriving DecidableEq, Repr

/-- Observable effects of `ConnectionProxy.LogDebug`. -/
structure LogDebugEffect where
  written : List LogLine
  closedConn : Bool
  result : Bool
deriving DecidableEq, Repr

/-- Shallow embedding of `ConnectionProxy.LogDebug`
(src/connection_proxy.go lines 31-40): the DEBUG line is written only when
`debugLog` is set, but the close of a non-nil `conn` is unconditional, and
`false` is always returned. -/
def LogDebug (debugLog : Bool) (msg hostname : String) (conn : Option Unit) :
    LogDebugEffect :=
  { written := if debugLog then [⟨msg, "DEBUG", hostname, conn.isSome⟩] else []
    closedConn := conn.isSome
    result := false }

/-! ### Whitelist-era TLS orchestrator -/

/-- Terminal states of the whitelist-era TLS orchestration. -/
inductive TLSOrchTag where
  | rejectedHostname | notWhitelisted | dialFailed | proxied
deriving DecidableEq, Repr

/-- Observable effects of the whitelist-era TLS orchestration. -/
structure TLSOrchResult where
  tag : TLSOrchTag
  whitelistChecked : Bool
  dialed : List String
  closes : Nat
deriving DecidableEq, Repr

/-- Modelled from the spec: the whitelist-era `HandleTLS` orchestration
(spec section 4.3).  The two-argument TLS handler that performs the
empty-hostname and `"127.0.0.1"` rejection and the whitelist check is not
among the source files (only its tests and `ConnectionProxy` are), so the
post-sniff orchestration is modelled from the spec's words: run TLS
sniffer, then reject an empty hostname or the literal `"127.0.0.1"`, then
the whitelist check, then dial `"www.<hostname>:443"`, then replay and
splice. -/
def handleTLSOrch (sha1hex : String → String) (whitelist : List String)
    (dialOK : String → Bool) (hostname : String) : TLSOrchResult :=
  if hostname = "" ∨ hostname = "127.0.0.1" then
    ⟨.rejectedHostname, false, [], 1⟩
  else if IsWhiteListed sha1hex whitelist hostname = false then
    ⟨.notWhitelisted, true, [], 1⟩
  else if dialOK ("www." ++ hostname ++ ":443") then
    ⟨.proxied, true, ["www." ++ hostname ++ ":443"], 0⟩
  else ⟨.dialFailed, true, ["www." ++ hostname ++ ":443"], 1⟩

/-! ### Concrete inputs used by witnesses and counterexamples -/

/-- A well-formed ClientHello example: one non-SNI extension (type 23)
before a server_name extension carrying hostname bytes `"ab"`. -/
def chEx : ClientHello :=
  ⟨[0, 0, 0], [3, 3], List.replicate 32 0, [], [], [], [(23, [9])], [97, 98], []⟩

/-- The `rest` bytes of a well-formed ClientHello that has an extensions
block but no server_name extension (one extension of type 1, empty data). -/
def noSniRest : List Nat :=
  [1, 0, 0, 44, 3, 3] ++ List.replicate 32 0 ++ [0, 0, 0, 0, 0, 4, 0, 1, 0, 0]

/-- Scenario A request bytes from the spec (section 8). -/
def scenarioA : List Char :=
  "GET / HTTP/1.0\r\nHost: example.com\r\nContent-Length: 0\r\n\r\n".data

/-! ### Supporting lemmas -/

theorem be16_len2 (n : Nat) : be16 (n / 256) (n % 256) = n := by
  unfold be16; omega

theorem getAt (A l : List Nat) (i : Nat) : (A ++ l)[A.length + i]? = l[i]? := by
  rw [List.getElem?_append_right (Nat.le_add_right _ _)]
  simp

theorem getStep (A l : List Nat) (j i : Nat) (h : j = A.length + i) :
    (A ++ l)[j]? = l[i]? := by
  subst h; exact getAt A l i

theorem dropAt (A l : List Nat) (i : Nat) : (A ++ l).drop (A.length + i) = l.drop i := by
  rw [← List.drop_drop, List.drop_left]

@[simp] theorem encExt_length (p : Nat × List Nat) :
    (encExt p).length = 4 + p.2.length := by
  simp [encExt]; omega

@[simp] theorem encSNI_length (h : List Nat) :
    (encSNI h).length = 9 + h.length := by
  simp [encSNI]; omega

theorem extsBytes_length_ge (ps : List (Nat × List Nat)) :
    ps.length ≤ (extsBytes ps).length := by
  induction ps with
  | nil => simp [extsBytes]
  | cons p ps ih => simp [extsBytes]; omega

theorem extLoop_skip (pre : List (Nat × List Nat)) :
    ∀ (A tail : List Nat) (R fuel : Nat),
      (∀ p ∈ pre, p.1 ≠ 0) → pre.length ≤ fuel →
      A.length + (extsBytes pre).length ≤ R →
      extLoop (A ++ (extsBytes pre ++ tail)) R A.length fuel
        = extLoop (A ++ (extsBytes pre ++ tail)) R
            (A.length + (extsBytes pre).length) (fuel - pre.length) := by
  induction pre with
  | nil => intro A tail R fuel _ _ _; simp [extsBytes]
  | cons p ps ih =>
    intro A tail R fuel hp hfuel hR
    obtain ⟨f, rfl⟩ : ∃ f, fuel = f + 1 := by
      cases fuel
      · simp at hfuel
      · exact ⟨_, rfl⟩
    have hlt : A.length < R := by
      have := extsBytes_length_ge ps
      simp [extsBytes] at hR
      omega
    have hrw : A ++ (extsBytes (p :: ps) ++ tail)
        = A ++ (encExt p ++ (extsBytes ps ++ tail)) := by
      simp [extsBytes]
    rw [hrw]
    have g0 : (A ++ (encExt p ++ (extsBytes ps ++ tail)))[A.length]? = some (p.1 / 256) := by
      rw [getStep A _ A.length 0 (by omega)]; simp [encExt]
    have g1 : (A ++ (encExt p ++ (extsBytes ps ++ tail)))[A.length + 1]? = some (p.1 % 256) := by
      rw [getAt]; simp [encExt]
    have g2 : (A ++ (encExt p ++ (extsBytes ps ++ tail)))[A.length + 2]? = some (p.2.length / 256) := by
      rw [getAt]; simp [encExt]
    have g3 : (A ++ (encExt p ++ (extsBytes ps ++ tail)))[A.length + 3]? = some (p.2.length % 256) := by
      rw [getAt]; simp [encExt]
    have hne : ¬ (be16 (p.1 / 256) (p.1 % 256) = 0) := by
      rw [be16_len2]; exact hp p (by simp)
    conv_lhs => rw [extLoop]
    rw [if_pos hlt, g0, g1, g2, g3]
    simp only [be16_len2]
    rw [if_neg (hp p (by simp))]
    have e1 : A ++ (encExt p ++ (extsBytes ps ++ tail))
        = (A ++ encExt p) ++ (extsBytes ps ++ tail) := by
      simp [List.append_assoc]
    have e2 : A.length + 4 + p.2.length = (A ++ encExt p).length := by
      simp; omega
    rw [e1, e2, ih (A ++ encExt p) tail R f (fun q hq => hp q (by simp [hq]))
      (by simp at hfuel; omega) (by simp [extsBytes] at hR ⊢; omega)]
    have e3 : (A ++ encExt p).length + (extsBytes ps).length
        = A.length + (extsBytes (p :: ps)).length := by
      simp [extsBytes]; omega
    have e4 : f - ps.length = f + 1 - (p :: ps).length := by
      simp
    rw [e3, e4]
theorem extLoop_sni (A tail h : List Nat) (R fuel : Nat)
    (hh : h ≠ []) (hlt : A.length < R) :
    extLoop (A ++ (encSNI h ++ tail)) R A.length (fuel + 1) = .found h := by
  have g0 : (A ++ (encSNI h ++ tail))[A.length]? = some 0 := by
    rw [getStep A _ A.length 0 (by omega)]; simp [encSNI]
  have g1 : (A ++ (encSNI h ++ tail))[A.length + 1]? = some 0 := by
    rw [getAt]; simp [encSNI]
  have g2 : (A ++ (encSNI h ++ tail))[A.length + 2]? = some ((h.length + 5) / 256) := by
    rw [getAt]; simp [encSNI]
  have g3 : (A ++ (encSNI h ++ tail))[A.length + 3]? = some ((h.length + 5) % 256) := by
    rw [getAt]; simp [encSNI]
  have g6 : (A ++ (encSNI h ++ tail))[A.length + 6]? = some 0 := by
    rw [getAt]; simp [encSNI]
  have g7 : (A ++ (encSNI h ++ tail))[A.length + 7]? = some (h.length / 256) := by
    rw [getAt]; simp [encSNI]
  have g8 : (A ++ (encSNI h ++ tail))[A.length + 8]? = some (h.length % 256) := by
    rw [getAt]; simp [encSNI]
  have hbound : A.length + 9 + h.length ≤ (A ++ (encSNI h ++ tail)).length := by
    simp; omega
  have hdrop : (A ++ (encSNI h ++ tail)).drop (A.length + 9) = h ++ tail := by
    rw [dropAt]; simp [encSNI]
  have hnz : ¬ (h.length = 0) := by simpa using hh
  have hz : be16 0 0 = 0 := rfl
  rw [extLoop, if_pos hlt, g0, g1, g2, g3]
  simp only [hz, eq_self_iff_true, if_true, g6, g7, g8, be16_len2, ne_eq,
    not_true_eq_false, if_false]
  rw [if_pos hbound, if_neg hnz, hdrop, List.take_left]
theorem extLoop_no_outOfFuel (rest : List Nat) (restLength : Nat) :
    ∀ (fuel current : Nat), restLength ≤ current + fuel →
      extLoop rest restLength current fuel ≠ .outOfFuel := by
  intro fuel
  induction fuel with
  | zero =>
    intro current hcur
    rw [extLoop, if_neg (by omega)]
    simp
  | succ n ih =>
    intro current hcur
    rw [extLoop]
    by_cases hc : current < restLength
    · rw [if_pos hc]
      repeat'
        first
          | exact ih _ (by omega)
          | split
          | simp
    · rw [if_neg hc]
      simp
theorem extLoop_full (pre : List (Nat × List Nat)) (A trailing h : List Nat)
    (R fuel : Nat) (hp : ∀ p ∈ pre, p.1 ≠ 0) (hh : h ≠ [])
    (hfuel : pre.length + 1 ≤ fuel)
    (hR : A.length + (extsBytes pre).length < R) :
    extLoop (A ++ (extsBytes pre ++ (encSNI h ++ trailing))) R A.length fuel
      = .found h := by
  rw [extLoop_skip pre A (encSNI h ++ trailing) R fuel hp (by omega) (by omega)]
  have e1 : A ++ (extsBytes pre ++ (encSNI h ++ trailing))
      = (A ++ extsBytes pre) ++ (encSNI h ++ trailing) := by
    simp
  have e2 : A.length + (extsBytes pre).length = (A ++ extsBytes pre).length := by
    simp
  obtain ⟨f, hf⟩ : ∃ f, fuel - pre.length = f + 1 :=
    ⟨fuel - pre.length - 1, by omega⟩
  rw [e1, e2, hf]
  exact extLoop_sni _ _ _ _ f hh (by simp; omega)

theorem sniffRest_encode (ch : ClientHello)
    (h3 : ch.innerLen.length = 3) (h2 : ch.clientVersion.length = 2)
    (h32 : ch.random.length = 32)
    (hexts : ∀ p ∈ ch.preExts, p.1 ≠ 0)
    (hhost : ch.hostname ≠ []) :
    sniffRest (chBody ch) (chBody ch).length = .found ch.hostname := by
  have hlen : (chBody ch).length
      = 44 + ch.sessionID.length + ch.cipherSuites.length
        + ch.compressionMethods.length + (extsBytes ch.preExts).length
        + 9 + ch.hostname.length + ch.trailing.length := by
    simp [chBody, len2, h3, h2, h32]
    try omega
  have hb0 : (chBody ch)[0]? = some 1 := by
    simp [chBody]
  have hb38 : (chBody ch)[38]? = some ch.sessionID.length := by
    have hsp : chBody ch
        = ([1] ++ ch.innerLen ++ ch.clientVersion ++ ch.random)
          ++ ([ch.sessionID.length] ++ (ch.sessionID
          ++ (len2 ch.cipherSuites.length ++ (ch.cipherSuites
          ++ ([ch.compressionMethods.length] ++ (ch.compressionMethods
          ++ (len2 (extsBytes ch.preExts ++ encSNI ch.hostname ++ ch.trailing).length
          ++ (extsBytes ch.preExts ++ (encSNI ch.hostname ++ ch.trailing))))))))) := by
      simp [chBody, List.append_assoc]
    rw [hsp, getStep _ _ 38 0 (by
      simp only [List.length_append, List.length_cons, List.length_nil, h3, h2, h32]
      try omega)]
    simp
  have hb39 : (chBody ch)[39 + ch.sessionID.length]?
      = some (ch.cipherSuites.length / 256) := by
    have hsp : chBody ch
        = ([1] ++ ch.innerLen ++ ch.clientVersion ++ ch.random
            ++ [ch.sessionID.length] ++ ch.sessionID)
          ++ (len2 ch.cipherSuites.length ++ (ch.cipherSuites
          ++ ([ch.compressionMethods.length] ++ (ch.compressionMethods
          ++ (len2 (extsBytes ch.preExts ++ encSNI ch.hostname ++ ch.trailing).length
          ++ (extsBytes ch.preExts ++ (encSNI ch.hostname ++ ch.trailing))))))) := by
      simp [chBody, List.append_assoc]
    rw [hsp, getStep _ _ (39 + ch.sessionID.length) 0 (by
      simp only [List.length_append, List.length_cons, List.length_nil, h3, h2, h32]
      try omega)]
    simp [len2]
  have hb40 : (chBody ch)[39 + ch.sessionID.length + 1]?
      = some (ch.cipherSuites.length % 256) := by
    have hsp : chBody ch
        = ([1] ++ ch.innerLen ++ ch.clientVersion ++ ch.random
            ++ [ch.sessionID.length] ++ ch.sessionID)
          ++ (len2 ch.cipherSuites.length ++ (ch.cipherSuites
          ++ ([ch.compressionMethods.length] ++ (ch.compressionMethods
          ++ (len2 (extsBytes ch.preExts ++ encSNI ch.hostname ++ ch.trailing).length
          ++ (extsBytes ch.preExts ++ (encSNI ch.hostname ++ ch.trailing))))))) := by
      simp [chBody, List.append_assoc]
    rw [hsp, getStep _ _ (39 + ch.sessionID.length + 1) 1 (by
      simp only [List.length_append, List.length_cons, List.length_nil, h3, h2, h32]
      try omega)]
    simp [len2]
  have hbM : (chBody ch)[39 + ch.sessionID.length + 2 + ch.cipherSuites.length]?
      = some ch.compressionMethods.length := by
    have hsp : chBody ch
        = ([1] ++ ch.innerLen ++ ch.clientVersion ++ ch.random
            ++ [ch.sessionID.length] ++ ch.sessionID
            ++ len2 ch.cipherSuites.length ++ ch.cipherSuites)
          ++ ([ch.compressionMethods.length] ++ (ch.compressionMethods
          ++ (len2 (extsBytes ch.preExts ++ encSNI ch.hostname ++ ch.trailing).length
          ++ (extsBytes ch.preExts ++ (encSNI ch.hostname ++ ch.trailing))))) := by
      simp [chBody, List.append_assoc]
    rw [hsp, getStep _ _ (39 + ch.sessionID.length + 2 + ch.cipherSuites.length) 0 (by
      simp only [List.length_append, List.length_cons, List.length_nil, len2, h3, h2, h32]
      try omega)]
    simp
  simp only [sniffRest, hb0, hb38, hb39, hb40, hbM, be16_len2, ne_eq,
    not_true_eq_false, if_false, eq_self_iff_true, if_true]
  rw [if_neg (by omega)]
  have hge : ch.preExts.length ≤ (extsBytes ch.preExts).length :=
    extsBytes_length_ge _
  have hsp3 : chBody ch
      = ([1] ++ ch.innerLen ++ ch.clientVersion ++ ch.random
          ++ [ch.sessionID.length] ++ ch.sessionID
          ++ len2 ch.cipherSuites.length ++ ch.cipherSuites
          ++ [ch.compressionMethods.length] ++ ch.compressionMethods
          ++ len2 (extsBytes ch.preExts ++ encSNI ch.hostname ++ ch.trailing).length)
        ++ (extsBytes ch.preExts ++ (encSNI ch.hostname ++ ch.trailing)) := by
    simp [chBody, List.append_assoc]
  rw [hsp3]
  rw [show 39 + ch.sessionID.length + 2 + ch.cipherSuites.length + 1
        + ch.compressionMethods.length + 2
      = ([1] ++ ch.innerLen ++ ch.clientVersion ++ ch.random
          ++ [ch.sessionID.length] ++ ch.sessionID
          ++ len2 ch.cipherSuites.length ++ ch.cipherSuites
          ++ [ch.compressionMethods.length] ++ ch.compressionMethods
          ++ len2 (extsBytes ch.preExts ++ encSNI ch.hostname ++ ch.trailing).length).length
      from by
        simp only [List.length_append, List.length_cons, List.length_nil, len2,
          h3, h2, h32]
        try omega]
  exact extLoop_full ch.preExts _ ch.trailing ch.hostname _ _ hexts hhost
    (by
      have hge2 : ch.preExts.length ≤ (extsBytes ch.preExts).length :=
        extsBytes_length_ge _
      simp [len2, h3, h2, h32]
      omega)
    (by simp [len2, h3, h2, h32]; omega)
theorem handleHTTPS_encode (env : HTTPSEnv) (v0 v1 : Nat) (ch : ClientHello)
    (more : List Nat)
    (h3 : ch.innerLen.length = 3) (h2 : ch.clientVersion.length = 2)
    (h32 : ch.random.length = 32)
    (hexts : ∀ p ∈ ch.preExts, p.1 ≠ 0)
    (hhost : ch.hostname ≠ [])
    (hv : ¬ (v0 < 3 ∨ (v0 = 3 ∧ v1 < 1)))
    (hdial : env.dialOK (httpsAddr ch.hostname) = true) :
    handleHTTPSConnection env (encodeRecord v0 v1 ch ++ more)
      = ⟨.proxied, ch.hostname, 0, [httpsAddr ch.hostname],
          [[22], [v0, v1], len2 (chBody ch).length, chBody ch], true⟩ := by
  have hs : encodeRecord v0 v1 ch ++ more
      = 22 :: v0 :: v1 :: ((chBody ch).length / 256)
        :: ((chBody ch).length % 256) :: (chBody ch ++ more) := by
    simp [encodeRecord, len2]
  have r1 : readN 1 (22 :: v0 :: v1 :: ((chBody ch).length / 256)
        :: ((chBody ch).length % 256) :: (chBody ch ++ more))
      = some ([22], v0 :: v1 :: ((chBody ch).length / 256)
        :: ((chBody ch).length % 256) :: (chBody ch ++ more)) := by
    simp [readN]
  have r2 : readN 2 (v0 :: v1 :: ((chBody ch).length / 256)
        :: ((chBody ch).length % 256) :: (chBody ch ++ more))
      = some ([v0, v1], ((chBody ch).length / 256)
        :: ((chBody ch).length % 256) :: (chBody ch ++ more)) := by
    simp [readN]
  have r3 : readN 2 (((chBody ch).length / 256)
        :: ((chBody ch).length % 256) :: (chBody ch ++ more))
      = some ([(chBody ch).length / 256, (chBody ch).length % 256],
          chBody ch ++ more) := by
    simp [readN]
  have r4 : readN (chBody ch).length (chBody ch ++ more)
      = some (chBody ch, List.drop (chBody ch).length (chBody ch ++ more)) := by
    have hne : (chBody ch).length ≠ 0 := by simp [chBody]
    have hne2 : chBody ch ++ more ≠ [] := by simp [chBody]
    rw [readN, if_neg hne, if_neg hne2, List.take_left]
    simp
  rw [hs, handleHTTPSConnection, r1]
  norm_num
  simp only [r2, r3, List.getElem?_cons_zero, List.getElem?_cons_succ,
    Option.getD_some, be16_len2]
  rw [if_neg (show ¬ (v0 < 3 ∨ (v0 = 3 ∧ v1 = 0)) by omega)]
  simp only [r3, List.getElem?_cons_zero, List.getElem?_cons_succ,
    Option.getD_some, be16_len2, r4, finishTLS,
    sniffRest_encode ch h3 h2 h32 hexts hhost, hdial, if_true]
  simp [len2]

theorem splitLine_encode (a : List Char) : ∀ (r : List Char), '\n' ∉ a →
    splitLine (a ++ '\n' :: r) = (a, some r) := by
  induction a with
  | nil => intro r _; simp [splitLine]
  | cons c cs ih =>
    intro r hn
    have h1 : ¬ (c = '\n') := by
      intro h
      exact hn (by simp [h])
    have h2 : '\n' ∉ cs := fun h => hn (List.mem_cons_of_mem _ h)
    simp [splitLine, h1, ih r h2]

theorem readLine_encode (l rest : List Char) (hn : '\n' ∉ l) :
    readLine (l ++ '\r' :: '\n' :: rest) = some (l, rest) := by
  have key : splitLine (l ++ '\r' :: '\n' :: rest) = (l ++ ['\r'], some rest) := by
    have e : l ++ '\r' :: '\n' :: rest = (l ++ ['\r']) ++ '\n' :: rest := by simp
    rw [e, splitLine_encode _ rest]
    intro h
    rcases List.mem_append.mp h with h1 | h1
    · exact hn h1
    · simp at h1
  have hstrip : stripCR (l ++ ['\r']) = l := by
    simp [stripCR]
  cases l with
  | nil =>
    simp only [List.nil_append] at key hstrip ⊢
    simp [readLine, key, hstrip]
  | cons c cs =>
    simp only [List.cons_append] at key hstrip ⊢
    simp [readLine, key, hstrip]
theorem sniffHTTP_encode (pre : List (List Char)) :
    ∀ (ll extra : List Char) (fuel : Nat),
      (∀ l ∈ pre, '\n' ∉ l ∧ l ≠ [] ∧ hostMarker.isPrefixOf l = false) →
      '\n' ∉ ll → (ll = [] ∨ hostMarker.isPrefixOf ll = true) →
      (encodeLines (pre ++ [ll]) ++ extra).length + 1 ≤ fuel →
      sniffHTTP fuel (encodeLines (pre ++ [ll]) ++ extra)
        = .ok (pre ++ [ll]) (ll.drop 6) extra := by
  induction pre with
  | nil =>
    intro ll extra fuel _ hnl hll hfuel
    obtain ⟨f, rfl⟩ : ∃ f, fuel = f + 1 := ⟨fuel - 1, by omega⟩
    have e : encodeLines ([] ++ [ll]) ++ extra = ll ++ '\r' :: '\n' :: extra := by
      simp [encodeLines]
    rw [e] at hfuel ⊢
    rw [sniffHTTP, readLine_encode ll extra hnl]
    rcases hll with rfl | hpre
    · simp
    · have hne : ll ≠ [] := by
        rintro rfl
        simp [hostMarker, List.isPrefixOf] at hpre
      simp [hne, hpre]
  | cons p ps ih =>
    intro ll extra fuel hp hnl hll hfuel
    obtain ⟨f, rfl⟩ : ∃ f, fuel = f + 1 := ⟨fuel - 1, by omega⟩
    have e : encodeLines ((p :: ps) ++ [ll]) ++ extra
        = p ++ '\r' :: '\n' :: (encodeLines (ps ++ [ll]) ++ extra) := by
      simp [encodeLines]
    rw [e] at hfuel ⊢
    obtain ⟨hp1, hp2, hp3⟩ := hp p (by simp)
    rw [sniffHTTP, readLine_encode p _ hp1]
    have hrec := ih ll extra f (fun l hl => hp l (by simp [hl])) hnl hll (by
      have : (p ++ '\r' :: '\n' :: (encodeLines (ps ++ [ll]) ++ extra)).length
          = p.length + 2 + (encodeLines (ps ++ [ll]) ++ extra).length := by
        simp
        omega
      omega)
    simp [hp2, hp3, hrec]
theorem handleHTTP_encode (env : HTTPEnv) (pre : List (List Char)) (ll extra : List Char)
    (hp : ∀ l ∈ pre, '\n' ∉ l ∧ l ≠ [] ∧ hostMarker.isPrefixOf l = false)
    (hnl : '\n' ∉ ll) (hll : ll = [] ∨ hostMarker.isPrefixOf ll = true) :
    handleHTTPConnection env (encodeLines (pre ++ [ll]) ++ extra)
      = if env.dialOK (httpAddr (ll.drop 6)) then
          ⟨.proxied, ll.drop 6, 0, [httpAddr (ll.drop 6)],
            joinLines (pre ++ [ll]), joinLines (pre ++ [ll]) ++ extra, pre ++ [ll]⟩
        else
          ⟨.dialFailed, ll.drop 6, 1, [httpAddr (ll.drop 6)], [], [], pre ++ [ll]⟩ := by
  rw [handleHTTPConnection, sniffHTTP_encode pre ll extra _ hp hnl hll (by omega)]

theorem hostMarker_isPrefixOf_append (X : List Char) :
    hostMarker.isPrefixOf (hostMarker ++ X) = true := by
  rw [ List.isPrefixOf_iff_prefix]
  exact List.prefix_append _ _

theorem hostMarker_drop (X : List Char) : (hostMarker ++ X).drop 6 = X := by
  have : (6 : Nat) = hostMarker.length := by simp [hostMarker]
  rw [this, List.drop_left]

theorem containsHash_iff (hash : String) (wl : List String) :
    containsHash hash wl = true ↔ hash ∈ wl := by
  induction wl with
  | nil => simp [containsHash]
  | cons e es ih =>
    by_cases h : hash = e <;> simp [containsHash, h, ih]
/-! ### Claim theorems -/

/-- Claim C1: for every well-formed TLS ClientHello record whose extensions
contain a single-entry server_name list, `handleHTTPSConnection` extracts a
hostname equal to the value encoded in the server_name extension, and the
four captured byte chunks (record-type byte, two version bytes, two length
bytes, record body) written to the upstream concatenate to exactly the
original record bytes. -/
theorem claim_sni_extraction_and_replay (env : HTTPSEnv) (v0 v1 : Nat)
    (ch : ClientHello) (more : List Nat)
    (h3 : ch.innerLen.length = 3) (h2 : ch.clientVersion.length = 2)
    (h32 : ch.random.length = 32)
    (_hsid : ch.sessionID.length ≤ 255)
    (_hcs : ch.cipherSuites.length < 65536)
    (_hcm : ch.compressionMethods.length ≤ 255)
    (hexts : ∀ p ∈ ch.preExts, p.1 ≠ 0)
    (hhost : ch.hostname ≠ [])
    (_hbytes : ∀ b ∈ chBody ch, b < 256)
    (_hlen : (chBody ch).length < 65536)
    (_hv0 : v0 < 256) (_hv1 : v1 < 256)
    (hv : ¬ (v0 < 3 ∨ (v0 = 3 ∧ v1 < 1)))
    (hdial : env.dialOK (httpsAddr ch.hostname) = true) :
    (handleHTTPSConnection env (encodeRecord v0 v1 ch ++ more)).tag = .proxied
    ∧ (handleHTTPSConnection env (encodeRecord v0 v1 ch ++ more)).hostname
        = ch.hostname
    ∧ (handleHTTPSConnection env (encodeRecord v0 v1 ch ++ more)).preWrites
        = [[22], [v0, v1], len2 (chBody ch).length, chBody ch]
    ∧ [22] ++ [v0, v1] ++ len2 (chBody ch).length ++ chBody ch
        = encodeRecord v0 v1 ch := by
  rw [handleHTTPS_encode env v0 v1 ch more h3 h2 h32 hexts hhost hv hdial]
  exact ⟨rfl, rfl, rfl, rfl⟩

theorem claim_sni_extraction_and_replay_witness :
    (handleHTTPSConnection envAll (encodeRecord 3 1 chEx ++ [])).tag = .proxied
    ∧ (handleHTTPSConnection envAll (encodeRecord 3 1 chEx ++ [])).hostname
        = chEx.hostname
    ∧ (handleHTTPSConnection envAll (encodeRecord 3 1 chEx ++ [])).preWrites
        = [[22], [3, 1], len2 (chBody chEx).length, chBody chEx]
    ∧ [22] ++ [3, 1] ++ len2 (chBody chEx).length ++ chBody chEx
        = encodeRecord 3 1 chEx :=
  claim_sni_extraction_and_replay envAll 3 1 chEx [] (by decide) (by decide)
    (by decide) (by decide) (by decide) (by decide) (by decide) (by decide)
    (by decide) (by decide) (by decide) (by decide) (by decide) rfl

/-- Claim C2 (code bug): `handleHTTPSConnection` is claimed never to crash
on truncated records, but on the record below (declared record length 1,
so `rest = [0x01]`) the Go code evaluates `rest[38]` with `len(rest) = 1`,
an out-of-range index that panics and kills the process. -/
theorem claim_truncated_record_panics (env : HTTPSEnv) :
    handleHTTPSConnection env [22, 3, 1, 0, 1, 1]
      = ⟨.panicked, [], 0, [], [], false⟩ := rfl

/-- Claim C3 (code bug): on a well-formed ClientHello whose extensions hold
no server_name entry, the handler returns on the "no hostname found" path
without ever calling `downstream.Close()` (`closes = 0`), although every
failure is claimed to close each opened socket exactly once; no byte is
relayed and no dial is attempted. -/
theorem claim_no_hostname_path_skips_close (env : HTTPSEnv) :
    handleHTTPSConnection env ([22, 3, 1, 0, 48] ++ noSniRest)
      = ⟨.noHostname, [], 0, [], [], false⟩ := rfl
/-- Claim C7 (corrected, counterexample): after the header declares record
length 5 but only one more byte (`2`) arrives, the single `Read` into
`rest` is short; the Go code ignores the returned byte count, so the
zero-padded buffer `[2,0,0,0,0]` is parsed and the run ends on the
"not a ClientHello" path - a parse outcome, not the claimed hard read
failure. -/
theorem claim_exact_read_counterexample :
    handleHTTPSConnection envAll [22, 3, 1, 0, 5, 2]
      = ⟨.notClientHello, [], 1, [], [], false⟩ := rfl

/-- Claim C7 (amended): after reading the record length `L > 0`, only a
zero-length read (EOF with no byte available) is a hard failure that
closes the connection; a short read that delivers at least one byte is
not detected, and parsing proceeds on the zero-padded partially-filled
buffer of length `L`. -/
theorem claim_exact_read_amended (env : HTTPSEnv) (v0 v1 b4 b5 : Nat)
    (hv : ¬ (v0 < 3 ∨ (v0 = 3 ∧ v1 < 1)))
    (hL : 0 < be16 b4 b5) :
    handleHTTPSConnection env [22, v0, v1, b4, b5]
        = ⟨.readErrRest, [], 1, [], [], false⟩
    ∧ ∀ t ts, handleHTTPSConnection env (22 :: v0 :: v1 :: b4 :: b5 :: t :: ts)
        = finishTLS env [22] [v0, v1] [b4, b5]
            ((t :: ts).take (be16 b4 b5)
              ++ List.replicate (be16 b4 b5 - ((t :: ts).take (be16 b4 b5)).length) 0)
            (be16 b4 b5) := by
  have r1 : ∀ a b c d tl, readN 1 (22 :: a :: b :: c :: d :: tl)
      = some ([22], a :: b :: c :: d :: tl) := by
    intro a b c d tl; simp [readN]
  have r2 : ∀ a b c d tl, readN 2 (a :: b :: c :: d :: tl)
      = some ([a, b], c :: d :: tl) := by
    intro a b c d tl; simp [readN]
  have r3 : ∀ c d (tl : List Nat), readN 2 (c :: d :: tl) = some ([c, d], tl) := by
    intro c d tl; simp [readN]
  constructor
  · rw [show ([22, v0, v1, b4, b5] : List Nat)
        = 22 :: v0 :: v1 :: b4 :: b5 :: [] from rfl]
    rw [handleHTTPSConnection, r1]
    norm_num
    simp only [r2, r3, List.getElem?_cons_zero, List.getElem?_cons_succ,
      Option.getD_some]
    rw [if_neg (show ¬ (v0 < 3 ∨ (v0 = 3 ∧ v1 = 0)) by omega)]
    rw [readN, if_neg (by omega), if_pos rfl]
  · intro t ts
    rw [handleHTTPSConnection, r1]
    norm_num
    simp only [r2, r3, List.getElem?_cons_zero, List.getElem?_cons_succ,
      Option.getD_some]
    rw [if_neg (show ¬ (v0 < 3 ∨ (v0 = 3 ∧ v1 = 0)) by omega)]
    rw [readN, if_neg (by omega), if_neg (by simp)]
    simp

theorem claim_exact_read_amended_witness :
    (handleHTTPSConnection envAll [22, 3, 1, 0, 5]
        = ⟨.readErrRest, [], 1, [], [], false⟩)
    ∧ ∀ t ts, handleHTTPSConnection envAll (22 :: 3 :: 1 :: 0 :: 5 :: t :: ts)
        = finishTLS envAll [22] [3, 1] [0, 5]
            ((t :: ts).take (be16 0 5)
              ++ List.replicate (be16 0 5 - ((t :: ts).take (be16 0 5)).length) 0)
            (be16 0 5) :=
  claim_exact_read_amended envAll 3 1 0 5 (by decide) (by decide)
/-- Claim C9: the extension-scanning loop of `handleHTTPSConnection`
terminates: each iteration advances the cursor by at least the 4 header
bytes plus the non-negative declared extension-data length, so
`restLength - current` fuel (in particular `restLength` fuel, which the
handler passes) is never exhausted. -/
theorem claim_extension_loop_terminates (rest : List Nat)
    (restLength fuel current : Nat) (h : restLength ≤ current + fuel) :
    extLoop rest restLength current fuel ≠ .outOfFuel :=
  extLoop_no_outOfFuel rest restLength fuel current h

theorem claim_extension_loop_terminates_witness :
    extLoop [0, 0, 0, 0] 4 0 4 ≠ .outOfFuel :=
  claim_extension_loop_terminates [0, 0, 0, 0] 4 4 0 (by decide)

/-- Claim C4: `IsWhiteListed` returns true exactly when the snapshot is
empty (fail-open default) or contains the SHA-1 hex digest of the
hostname. -/
theorem claim_whitelist_iff (sha1hex : String → String)
    (whitelist : List String) (hostname : String) :
    IsWhiteListed sha1hex whitelist hostname = true
      ↔ (whitelist = [] ∨ sha1hex hostname ∈ whitelist) := by
  cases whitelist with
  | nil => simp [IsWhiteListed]
  | cons e es => simp [IsWhiteListed, containsHash_iff]

/-- Claim C5: the whitelist-era TLS orchestration rejects an empty
hostname and the literal `"127.0.0.1"` before any whitelist check or
upstream dial, regardless of the whitelist contents. -/
theorem claim_tls_rejects_empty_and_loopback (sha1hex : String → String)
    (whitelist : List String) (dialOK : String → Bool) (hostname : String)
    (h : hostname = "" ∨ hostname = "127.0.0.1") :
    handleTLSOrch sha1hex whitelist dialOK hostname
      = ⟨.rejectedHostname, false, [], 1⟩ := by
  rw [handleTLSOrch, if_pos h]

theorem claim_tls_rejects_empty_and_loopback_witness :
    handleTLSOrch (fun s => s) [] (fun _ => true) "127.0.0.1"
      = ⟨.rejectedHostname, false, [], 1⟩ :=
  claim_tls_rejects_empty_and_loopback (fun s => s) [] (fun _ => true)
    "127.0.0.1" (Or.inr rfl)

/-- Claim C10: `LogDebug` closes the passed connection whenever it is
non-nil and returns false, even when the debug flag is disabled; the flag
only suppresses the log line, never the close. -/
theorem claim_logdebug_always_closes (debugLog : Bool) (msg hostname : String)
    (conn : Option Unit) :
    (LogDebug debugLog msg hostname conn).closedConn = conn.isSome
    ∧ (LogDebug debugLog msg hostname conn).result = false
    ∧ (LogDebug false msg hostname conn).written = [] :=
  ⟨rfl, rfl, rfl⟩
/-- Claim C6 (corrected, counterexample): in Scenario A the upstream does
not receive exactly the bytes the client sent: the two sniffed header
lines are replayed with a bare newline instead of the original
carriage-return + newline. -/
theorem claim_http_replay_counterexample :
    (handleHTTPConnection envHTTPAll scenarioA).upstreamTotal ≠ scenarioA := by
  decide

/-- Claim C6 (amended): for a request whose headers contain a
`"Host: X"` line before the first blank line, the handler dials
`"www.X:80"` exactly once, the bytes written upstream before streaming are
exactly the sniffed lines in order, each followed by a single newline
(CRLF terminators are thus rewritten to LF), and the upstream then
receives the untouched remainder of the stream. -/
theorem claim_http_host_dial_and_replay (env : HTTPEnv)
    (pre : List (List Char)) (X extra : List Char)
    (hp : ∀ l ∈ pre, '\n' ∉ l ∧ l ≠ [] ∧ hostMarker.isPrefixOf l = false)
    (hX : '\n' ∉ X)
    (hdial : env.dialOK (httpAddr X) = true) :
    handleHTTPConnection env (encodeLines (pre ++ [hostMarker ++ X]) ++ extra)
      = ⟨.proxied, X, 0, [httpAddr X], joinLines (pre ++ [hostMarker ++ X]),
          joinLines (pre ++ [hostMarker ++ X]) ++ extra,
          pre ++ [hostMarker ++ X]⟩ := by
  have hnl : '\n' ∉ hostMarker ++ X := by
    intro h
    rcases List.mem_append.mp h with h1 | h1
    · simp [hostMarker] at h1
    · exact hX h1
  have e := handleHTTP_encode env pre (hostMarker ++ X) extra hp hnl
    (Or.inr (hostMarker_isPrefixOf_append X))
  rw [hostMarker_drop] at e
  rw [e, if_pos hdial]

theorem claim_http_host_dial_and_replay_witness :
    handleHTTPConnection envHTTPAll
        (encodeLines ([['G']] ++ [hostMarker ++ ['a']]) ++ ['Z'])
      = ⟨.proxied, ['a'], 0, [httpAddr ['a']],
          joinLines ([['G']] ++ [hostMarker ++ ['a']]),
          joinLines ([['G']] ++ [hostMarker ++ ['a']]) ++ ['Z'],
          [['G']] ++ [hostMarker ++ ['a']]⟩ :=
  claim_http_host_dial_and_replay envHTTPAll [['G']] ['a'] ['Z']
    (by decide) (by decide) rfl

/-- Claim C8: when the headers end with a blank line and no `"Host: "`
line was seen, the hostname stays empty, the handler still dials
`"www.:80"`, and the failure is the ordinary connect-error path
("Couldn't connect to backend"), closing the downstream socket. -/
theorem claim_http_empty_host_dial (env : HTTPEnv)
    (pre : List (List Char)) (extra : List Char)
    (hp : ∀ l ∈ pre, '\n' ∉ l ∧ l ≠ [] ∧ hostMarker.isPrefixOf l = false)
    (hdial : env.dialOK (httpAddr []) = false) :
    handleHTTPConnection env (encodeLines (pre ++ [[]]) ++ extra)
      = ⟨.dialFailed, [], 1, [httpAddr []], [], [], pre ++ [[]]⟩
    ∧ httpAddr [] = "www.:80".data := by
  constructor
  · have e := handleHTTP_encode env pre [] extra hp (by simp) (Or.inl rfl)
    simp only [List.drop_nil] at e
    rw [e, if_neg (by simp [hdial])]
  · decide

theorem claim_http_empty_host_dial_witness :
    (handleHTTPConnection envHTTPNone (encodeLines ([['G']] ++ [[]]) ++ ['Z'])
      = ⟨.dialFailed, [], 1, [httpAddr []], [], [], [['G']] ++ [[]]⟩)
    ∧ httpAddr [] = "www.:80".data :=
  claim_http_empty_host_dial envHTTPNone [['G']] ['Z'] (by decide) rfl

end SensibleProxy
